import Mathlib

set_option maxRecDepth 100000

/-!
Shallow embedding of the MCQ extraction pipeline of `src/server.js`
(`parseMCQQuestions` and `createFallbackQuestionsFromText`).

Text is modelled as `List Char`.  The JavaScript regexes used by the code are
small enough that their leftmost/greedy/lazy matching behaviour can be resolved
into deterministic scanning functions; each such function carries a comment
naming the regex it embeds.  `Math.floor(Math.random() * n)` is modelled by an
injected stream `r : Nat → Nat` read at an explicit counter and reduced `% n`,
which produces exactly the values `0 .. n-1` that the JavaScript expression can
produce.  `JSON.parse` is modelled by an executable JSON parser returning
`Option JsVal`; a thrown exception is `none`.  Number tokens keep their lexeme
(the pipeline never does arithmetic on parsed numbers).  `toLowerCase` is
modelled on ASCII letters, the only case-carrying characters the pipeline's
own string constants and regexes distinguish.
-/

/-- JavaScript `\s` (also the character class removed by `String.prototype.trim`). -/
def isWs (c : Char) : Bool :=
  let n := c.toNat
  decide ((9 ≤ n ∧ n ≤ 13) ∨ n = 32 ∨ n = 160 ∨ n = 0x1680 ∨
    (0x2000 ≤ n ∧ n ≤ 0x200a) ∨ n = 0x2028 ∨ n = 0x2029 ∨ n = 0x202f ∨
    n = 0x205f ∨ n = 0x3000 ∨ n = 0xfeff)

/-- JavaScript `\d`. -/
def isDigit (c : Char) : Bool := decide ('0' ≤ c ∧ c ≤ '9')

/-- JavaScript `\w` (word character). -/
def isWordChar (c : Char) : Bool :=
  decide (('a' ≤ c ∧ c ≤ 'z') ∨ ('A' ≤ c ∧ c ≤ 'Z') ∨ ('0' ≤ c ∧ c ≤ '9') ∨ c = '_')

/-- ASCII lower-casing of one character (model of `toLowerCase`). -/
def lowerC (c : Char) : Char :=
  if 'A' ≤ c ∧ c ≤ 'Z' then Char.ofNat (c.toNat + 32) else c

/-- ASCII lower-casing of a string. -/
def lowerL (l : List Char) : List Char := l.map lowerC

/-- `pat` is a prefix of `l` (case-sensitive literal). -/
def litAt : List Char → List Char → Bool
  | [], _ => true
  | _ :: _, [] => false
  | p :: ps, c :: t => p == c && litAt ps t

/-- Index of the first occurrence of the literal `pat` in `l`
(JavaScript `String.prototype.indexOf`, `none` for `-1`). -/
def findSub (pat : List Char) : List Char → Option Nat
  | [] => if litAt pat [] then some 0 else none
  | c :: t => if litAt pat (c :: t) then some 0 else (findSub pat t).map (· + 1)

/-- JavaScript `String.prototype.includes`. -/
def hasSub (pat l : List Char) : Bool := (findSub pat l).isSome

/-- `text.split(sep)[1]` for a literal separator: the segment between the
first and second occurrence of `sep` (to the end if `sep` occurs once),
`none` when `sep` does not occur. -/
def afterSplit (pat l : List Char) : Option (List Char) :=
  match findSub pat l with
  | none => none
  | some i =>
    let rest := l.drop (i + pat.length)
    match findSub pat rest with
    | none => some rest
    | some j => some (rest.take j)

/-- JavaScript `String.prototype.trim`. -/
def jsTrim (l : List Char) : List Char :=
  ((l.dropWhile isWs).reverse.dropWhile isWs).reverse

/-- Case-insensitive literal match; returns the rest of the input on success. -/
def ciLit : List Char → List Char → Option (List Char)
  | [], l => some l
  | _ :: _, [] => none
  | p :: ps, c :: t => if lowerC p == lowerC c then ciLit ps t else none

/-!
### The structured-text question regex

`/(?:^|\n)(?:\d+\.\s*)([^?]+\?)/g` — after the anchor and `\d+\.`, the greedy
`\s*` and the capture `([^?]+\?)` interact as follows: the capture must end at
the first `?` after the dot (call its offset in the post-dot text `q'`, so
`q' = q + 1` below), the capture needs at least one non-`?` character, and the
greedy `\s*` keeps as many whitespace characters as it can, i.e. the capture
starts at offset `min W (q' - 1)` where `W` is the length of the whitespace
run after the dot.  There is no match when no `?` follows or when the `?` is
immediately after the dot (`q' = 0`).
-/

/-- Match `\d+\.\s*([^?]+\?)` at the head of `l`:
returns the capture and the rest of the input after the `?`. -/
def matchQBody (l : List Char) : Option (List Char × List Char) :=
  let ds := l.takeWhile isDigit
  match ds, l.drop ds.length with
  | [], _ => none
  | _ :: _, '.' :: l2 =>
    match findSub ['?'] l2 with
    | none => none
    | some 0 => none
    | some (q + 1) =>
      let W := (l2.takeWhile isWs).length
      let c := min W q
      some (((l2.drop c).take (q + 1 - c)) ++ ['?'], l2.drop (q + 2))
  | _ :: _, _ => none

/-- Scan for `\n`-anchored question matches (positions after the start). -/
def qScanTail : Nat → List Char → List (List Char)
  | 0, _ => []
  | _ + 1, [] => []
  | f + 1, c :: t =>
    if c == '\n' then
      match matchQBody t with
      | some (cap, rest) => cap :: qScanTail f rest
      | none => qScanTail f t
    else qScanTail f t

/-- All captures of `/(?:^|\n)(?:\d+\.\s*)([^?]+\?)/g` over the text
(`matchAll`, in order). -/
def qScan (l : List Char) : List (List Char) :=
  match matchQBody l with
  | some (cap, rest) => cap :: qScanTail (rest.length + 1) rest
  | none => qScanTail (l.length + 1) l

/-!
### The options-zone boundary split

`optionsText.split(/(?:\d+\.\s*)|(?:\n\s*\n)/)[0]` — only the position of the
leftmost separator match matters for element `[0]`.
-/

/-- `\d+\.` matches at the head of `l`. -/
def numDotHere (l : List Char) : Bool :=
  match l.dropWhile isDigit with
  | '.' :: _ => !(l.takeWhile isDigit).isEmpty
  | _ => false

/-- `\n\s*\n` matches at the head of `l`. -/
def blankHere (l : List Char) : Bool :=
  match l with
  | '\n' :: t => (t.takeWhile isWs).contains '\n'
  | _ => false

/-- Prefix of `l` before the leftmost separator match (the options zone). -/
def zoneTake : List Char → List Char
  | [] => []
  | c :: t => if numDotHere (c :: t) || blankHere (c :: t) then [] else c :: zoneTake t

/-!
### The option-line regex

`/(?:^|\n)(?:[A-D]\.\s*)(.+?)(?=\n[A-D]\.|$)/g` — `.` does not match `\n`, so
after the greedy `\s*` (tried from its maximal extent `W` downwards) the lazy
`(.+?)` must stop at the next newline (or the end of the string), where the
lookahead must see `\n[A-D]\.` (or the end of the string).
-/

def isOptLetter (c : Char) : Bool := c == 'A' || c == 'B' || c == 'C' || c == 'D'

/-- The lookahead `(?=\n[A-D]\.|$)`. -/
def lookOk : List Char → Bool
  | [] => true
  | '\n' :: c :: '.' :: _ => isOptLetter c
  | _ => false

/-- One attempt of the lazy `(.+?)` with the capture starting at offset `w`
of the post-`\s*` backtracking. -/
def optAt (l2 : List Char) (w : Nat) : Option (List Char × List Char) :=
  let v := l2.drop w
  let line := v.takeWhile (fun c => !(c == '\n'))
  let rest := v.drop line.length
  if !line.isEmpty && lookOk rest then some (line, rest) else none

/-- Backtracking of the greedy `\s*`: try capture start offset `w`, then
`w - 1`, … down to `0`. -/
def optTryW (l2 : List Char) : Nat → Option (List Char × List Char)
  | 0 => optAt l2 0
  | w + 1 =>
    match optAt l2 (w + 1) with
    | some res => some res
    | none => optTryW l2 w

/-- Match `[A-D]\.\s*(.+?)(?=\n[A-D]\.|$)` at the head of `l`. -/
def optBody (l : List Char) : Option (List Char × List Char) :=
  match l with
  | x :: '.' :: l2 =>
    if isOptLetter x then optTryW l2 ((l2.takeWhile isWs).length) else none
  | _ => none

/-- Scan for `\n`-anchored option matches. -/
def optScanTail : Nat → List Char → List (List Char)
  | 0, _ => []
  | _ + 1, [] => []
  | f + 1, c :: t =>
    if c == '\n' then
      match optBody t with
      | some (cap, rest) => cap :: optScanTail f rest
      | none => optScanTail f t
    else optScanTail f t

/-- All captures of the option-line regex over the options zone (`matchAll`). -/
def optScan (l : List Char) : List (List Char) :=
  match optBody l with
  | some (cap, rest) => cap :: optScanTail (rest.length + 1) rest
  | none => optScanTail (l.length + 1) l

/-!
### The correct-answer marker search

`optionsText.includes("Correct: X") || optionsText.includes("correct: X") ||
optionsText.match(/correct(?:\s*answer)?(?:\s*is)?(?:\s*:)?\s*X/i)` for
`X ∈ {A, B, C, D}` in that order.  Inside the regex every `\s*` is followed by
a non-whitespace literal, so its extent is forced (the whole whitespace run);
the only real backtracking is over including or skipping each of the three
optional groups, giving at most eight reachable positions before the final
`\s*X`.
-/

/-- `(?:\s*tok)?` taken: whitespace run, then the literal, case-insensitively. -/
def groupStep (tok : List Char) (l : List Char) : Option (List Char) :=
  ciLit tok (l.dropWhile isWs)

/-- The final `\s*X` of the marker regex, case-insensitively. -/
def letterHere (x : Char) (l : List Char) : Bool :=
  match l.dropWhile isWs with
  | c :: _ => lowerC c == lowerC x
  | [] => false

/-- All positions reachable after `(?:\s*answer)?(?:\s*is)?(?:\s*:)?`. -/
def pathsFrom (l : List Char) : List (List Char) :=
  let s1 := [l] ++ (match groupStep ("answer".data) l with | some x => [x] | none => [])
  let s2 := s1 ++ s1.filterMap (groupStep ("is".data))
  s2 ++ s2.filterMap (groupStep (":".data))

/-- `/correct(?:\s*answer)?(?:\s*is)?(?:\s*:)?\s*X/i.test(l)`. -/
def correctRegexTest (x : Char) : List Char → Bool
  | [] => false
  | c :: t =>
    (match ciLit ("correct".data) (c :: t) with
     | some rest => (pathsFrom rest).any (letterHere x)
     | none => false) || correctRegexTest x t

/-- One branch of the `correctAnswer` if-chain for the letter `x`. -/
def letterTest (cap low : List Char) (x : Char) (zone : List Char) : Bool :=
  hasSub cap zone || hasSub low zone || correctRegexTest x zone

/-- The `correctAnswer` computed from the options zone (default 0). -/
def correctAnswerOf (zone : List Char) : Nat :=
  if letterTest ("Correct: A".data) ("correct: A".data) 'A' zone then 0
  else if letterTest ("Correct: B".data) ("correct: B".data) 'B' zone then 1
  else if letterTest ("Correct: C".data) ("correct: C".data) 'C' zone then 2
  else if letterTest ("Correct: D".data) ("correct: D".data) 'D' zone then 3
  else 0

/-!
### Question records and the structured-text tier
-/

/-- One question record as built by the structured-text and fallback tiers
(`{question, options, correctAnswer}`). -/
structure MCQ where
  question : List Char
  options : List (List Char)
  correctAnswer : Nat
deriving DecidableEq

/-- The structured-text tier's accumulation loop over the question captures
(`for (let i = 0; i < questionMatches.length && questions.length < 10; i++)`). -/
def structLoop (t : List Char) : List (List Char) → List MCQ → List MCQ
  | [], acc => acc.reverse
  | cap :: rest, acc =>
    if 10 ≤ acc.length then acc.reverse
    else
      let qtext := jsTrim cap
      match afterSplit qtext t with
      | none => structLoop t rest acc
      | some seg =>
        let zone := zoneTake seg
        if zone.isEmpty then structLoop t rest acc
        else
          let opts := (optScan zone).map jsTrim
          if 4 ≤ opts.length then
            structLoop t rest (⟨qtext, opts.take 4, correctAnswerOf zone⟩ :: acc)
          else structLoop t rest acc

/-- All records accumulated by the structured-text tier. -/
def structuredQuestions (t : List Char) : List MCQ :=
  structLoop t (qScan t) []

/-!
### JSON values and `JSON.parse`

The elements accepted by the JSON tier are returned to the caller verbatim,
so the pipeline's result type is a JavaScript-value type.  Number tokens keep
their lexeme.
-/

/-- A parsed JavaScript (JSON) value. -/
inductive JsVal where
  | null : JsVal
  | bool (b : Bool) : JsVal
  | num (lex : List Char) : JsVal
  | str (s : List Char) : JsVal
  | arr (elems : List JsVal) : JsVal
  | obj (fields : List (List Char × JsVal)) : JsVal

/-- JSON whitespace (space, tab, line feed, carriage return). -/
def jsonWsDrop (l : List Char) : List Char :=
  l.dropWhile (fun c => c == ' ' || c == '\t' || c == '\n' || c == '\r')

/-- Hexadecimal digit value. -/
def hexVal (c : Char) : Option Nat :=
  let n := c.toNat
  if 48 ≤ n ∧ n ≤ 57 then some (n - 48)
  else if 97 ≤ n ∧ n ≤ 102 then some (n - 87)
  else if 65 ≤ n ∧ n ≤ 70 then some (n - 55)
  else none

/-- The two-character JSON string escapes (`\u` is handled separately):
each escape letter paired with the code point it denotes. -/
def escPairs : List (Char × Nat) :=
  [('"', 34), ('\\', 92), ('/', 47), ('b', 8), ('t', 9), ('n', 10), ('f', 12), ('r', 13)]

/-- Single-character JSON string escapes. -/
def escChar (e : Char) : Option Char :=
  (escPairs.find? (fun p => p.1 == e)).map (fun p => Char.ofNat p.2)

/-- JSON string body (after the opening quote): returns the decoded content
and the rest after the closing quote.  A `\u` escape denoting a surrogate
half is treated as a parse failure (the one place the model narrows
JavaScript's UTF-16 strings to Unicode scalars). -/
def parseStrGo : Nat → List Char → Option (List Char × List Char)
  | 0, _ => none
  | _ + 1, [] => none
  | f + 1, c :: t =>
    if c == '"' then some ([], t)
    else if c == '\\' then
      match t with
      | [] => none
      | e :: t2 =>
        match escChar e with
        | some ch => (parseStrGo f t2).map (fun p => (ch :: p.1, p.2))
        | none =>
          if e == 'u' then
            match t2 with
            | h1 :: h2 :: h3 :: h4 :: t3 =>
              match hexVal h1, hexVal h2, hexVal h3, hexVal h4 with
              | some a, some b, some c2, some d =>
                let n := ((a * 16 + b) * 16 + c2) * 16 + d
                if n.isValidChar then
                  (parseStrGo f t3).map (fun p => (Char.ofNat n :: p.1, p.2))
                else none
              | _, _, _, _ => none
            | _ => none
          else none
    else if c.toNat < 32 then none
    else (parseStrGo f t).map (fun p => (c :: p.1, p.2))

/-- JSON number: exponent digits. -/
def numExpDigits (acc l : List Char) : Option (List Char × List Char) :=
  let ds := l.takeWhile isDigit
  if ds.isEmpty then none else some (acc ++ ds, l.drop ds.length)

/-- JSON number: optional exponent part. -/
def numExpPart (acc : List Char) (l : List Char) : Option (List Char × List Char) :=
  match l with
  | c :: t =>
    if c == 'e' || c == 'E' then
      match t with
      | s :: t2 =>
        if s == '+' || s == '-' then numExpDigits (acc ++ [c, s]) t2
        else numExpDigits (acc ++ [c]) t
      | [] => none
    else some (acc, c :: t)
  | [] => some (acc, [])

/-- JSON number: optional fraction part, then exponent. -/
def numFracPart (acc : List Char) (l : List Char) : Option (List Char × List Char) :=
  match l with
  | '.' :: t =>
    let ds := t.takeWhile isDigit
    if ds.isEmpty then none else numExpPart (acc ++ '.' :: ds) (t.drop ds.length)
  | _ => numExpPart acc l

/-- JSON number: integer part (`0` or a nonzero-led digit run). -/
def numIntPart (l : List Char) : Option (List Char × List Char) :=
  match l with
  | '0' :: t => numFracPart ['0'] t
  | c :: t =>
    if isDigit c then
      let ds := t.takeWhile isDigit
      numFracPart (c :: ds) (t.drop ds.length)
    else none
  | [] => none

/-- JSON number token (lexeme and rest). -/
def parseNumTok (l : List Char) : Option (List Char × List Char) :=
  match l with
  | '-' :: t => (numIntPart t).map (fun p => ('-' :: p.1, p.2))
  | _ => numIntPart l

/-- Array elements after the first, given a value parser for this depth. -/
def parseArrGo (pv : List Char → Option (JsVal × List Char)) :
    Nat → List Char → List JsVal → Option (List JsVal × List Char)
  | 0, _, _ => none
  | f + 1, l, acc =>
    match pv l with
    | none => none
    | some (v, r) =>
      match jsonWsDrop r with
      | ',' :: r2 => parseArrGo pv f r2 (v :: acc)
      | ']' :: r2 => some ((v :: acc).reverse, r2)
      | _ => none

/-- Object members, given a value parser for this depth. -/
def parseObjGo (pv : List Char → Option (JsVal × List Char)) :
    Nat → List Char → List (List Char × JsVal) →
    Option (List (List Char × JsVal) × List Char)
  | 0, _, _ => none
  | f + 1, l, acc =>
    match jsonWsDrop l with
    | '"' :: t =>
      match parseStrGo (t.length + 1) t with
      | some (k, r) =>
        match jsonWsDrop r with
        | ':' :: r2 =>
          match pv r2 with
          | some (v, r3) =>
            match jsonWsDrop r3 with
            | ',' :: r4 => parseObjGo pv f r4 ((k, v) :: acc)
            | '\x7d' :: r4 => some (((k, v) :: acc).reverse, r4)
            | _ => none
          | none => none
        | _ => none
      | none => none
    | _ => none

/-- JSON value (with leading whitespace), fuel-indexed on nesting depth. -/
def parseVal : Nat → List Char → Option (JsVal × List Char)
  | 0, _ => none
  | f + 1, l0 =>
    match jsonWsDrop l0 with
    | 'n' :: 'u' :: 'l' :: 'l' :: t => some (JsVal.null, t)
    | 't' :: 'r' :: 'u' :: 'e' :: t => some (JsVal.bool true, t)
    | 'f' :: 'a' :: 'l' :: 's' :: 'e' :: t => some (JsVal.bool false, t)
    | '"' :: t => (parseStrGo (t.length + 1) t).map (fun p => (JsVal.str p.1, p.2))
    | '[' :: t =>
      (match jsonWsDrop t with
       | ']' :: t2 => some (JsVal.arr [], t2)
       | _ => (parseArrGo (parseVal f) (t.length + 1) t []).map
           (fun p => (JsVal.arr p.1, p.2)))
    | '\x7b' :: t =>
      (match jsonWsDrop t with
       | '\x7d' :: t2 => some (JsVal.obj [], t2)
       | _ => (parseObjGo (parseVal f) (t.length + 1) t []).map
           (fun p => (JsVal.obj p.1, p.2)))
    | l => (parseNumTok l).map (fun p => (JsVal.num p.1, p.2))

/-- `JSON.parse` on a whole string: `none` models a thrown `SyntaxError`. -/
def jsonParse (l : List Char) : Option JsVal :=
  match parseVal (l.length + 1) l with
  | some (v, r) => if (jsonWsDrop r).isEmpty then some v else none
  | none => none

/-!
### The JSON-array regex

`/\[\s*\{\s*"question"[\s\S]*\}\s*\]/` — each `\s*` in the opening part is
followed by a non-whitespace literal, so its extent is forced; the greedy
`[\s\S]*` ends at the last position `p` from which `\}\s*\]` matches, where
again the `\s*` is forced (the whole whitespace run after the `}`), so `p`
determines the match end.  `String.prototype.match` without `g` returns the
leftmost such match.
-/

/-- Case-sensitive literal match returning the rest (helper for `jsonOpenAt`). -/
def litRest : List Char → List Char → Option (List Char)
  | [], l => some l
  | _ :: _, [] => none
  | p :: ps, c :: t => if p == c then litRest ps t else none

/-- Match the opening `\[\s*\{\s*"question"` at the head of `l`:
returns the rest. -/
def jsonOpenAt (l : List Char) : Option (List Char) :=
  match l with
  | '[' :: t =>
    (match t.dropWhile isWs with
     | '\x7b' :: t2 => litRest ("\"question\"".data) (t2.dropWhile isWs)
     | _ => none)
  | _ => none

/-- `\}\s*\]` at the head of `l` (which starts right after a `}` candidate):
returns the number of characters of `l` covered by `\s*\]`. -/
def closeAfter (t : List Char) : Option Nat :=
  let t1 := t.dropWhile isWs
  match t1 with
  | ']' :: _ => some (t.length - t1.length + 1)
  | _ => none

/-- Length (from the current position) up to the end of the *last* `\}\s*\]`
match in `v`, i.e. the end of the greedy `[\s\S]*\}\s*\]`. -/
def bestClose : List Char → Option Nat
  | [] => none
  | c :: t =>
    let here : Option Nat :=
      if c == '\x7d' then (closeAfter t).map (· + 1) else none
    match bestClose t with
    | some n => some (n + 1)
    | none => here

/-- `mcqText.match(/\[\s*\{\s*"question"[\s\S]*\}\s*\]/)`: the matched
substring, or `none`. -/
def jsonArrayMatch : List Char → Option (List Char)
  | [] => none
  | c :: t =>
    match jsonOpenAt (c :: t) with
    | some u1 =>
      (match bestClose u1 with
       | some e => some ((c :: t).take ((c :: t).length - u1.length) ++ u1.take e)
       | none => jsonArrayMatch t)
    | none => jsonArrayMatch t

/-!
### The heuristic fallback tier (`createFallbackQuestionsFromText`)
-/

/-- `text.split(/[.?!]\s+/)`: split on one of `. ? !` followed by a whitespace
run (greedy). -/
def sentSplitGo : Nat → List Char → List Char → List (List Char)
  | 0, acc, _ => [acc.reverse]
  | _ + 1, acc, [] => [acc.reverse]
  | f + 1, acc, c :: t =>
    if (c == '.' || c == '?' || c == '!') &&
        (match t with | d :: _ => isWs d | [] => false) then
      acc.reverse :: sentSplitGo f [] (t.dropWhile isWs)
    else sentSplitGo f (c :: acc) t

/-- `text.split(/[.?!]\s+/)`. -/
def sentSplit (l : List Char) : List (List Char) :=
  sentSplitGo (l.length + 1) [] l

/-- `s.split(/\s+/)` (JavaScript semantics: a leading or trailing whitespace
run produces an empty element). -/
def splitWsGo : Nat → List Char → List Char → List (List Char)
  | 0, acc, _ => [acc.reverse]
  | _ + 1, acc, [] => [acc.reverse]
  | f + 1, acc, c :: t =>
    if isWs c then acc.reverse :: splitWsGo f [] (t.dropWhile isWs)
    else splitWsGo f (c :: acc) t

/-- `s.split(/\s+/)`. -/
def splitWs (l : List Char) : List (List Char) :=
  splitWsGo (l.length + 1) [] l

/-- `sentence.match(/\b\w{4,}\b/g) || []`: the maximal word-character runs of
length at least 4, in order. -/
def wordRunsGo : Nat → List Char → List (List Char)
  | 0, _ => []
  | _ + 1, [] => []
  | f + 1, c :: t =>
    if isWordChar c then
      let run := (c :: t).takeWhile isWordChar
      let rest := (c :: t).drop run.length
      if 4 ≤ run.length then run :: wordRunsGo f rest else wordRunsGo f rest
    else wordRunsGo f t

/-- `sentence.match(/\b\w{4,}\b/g) || []`. -/
def wordRuns (l : List Char) : List (List Char) :=
  wordRunsGo (l.length + 1) l

/-- `words.slice(max(0, k-2), min(words.length, k+3)).join(' ')`. -/
def joinSp : List (List Char) → List Char
  | [] => []
  | [x] => x
  | x :: y :: rest => x ++ ' ' :: joinSp (y :: rest)

/-- `option.replace(/[,.?!:;]$/, '')`: strip one trailing punctuation mark. -/
def stripPunct (l : List Char) : List Char :=
  match l.getLast? with
  | some c =>
    if c == ',' || c == '.' || c == '?' || c == '!' || c == ':' || c == ';' then
      l.dropLast
    else l
  | none => l

/-- The context window harvested around word `k` of `words`. -/
def mkWindow (words : List (List Char)) (k : Nat) : List Char :=
  let s := k - 2
  let e := min words.length (k + 3)
  stripPunct (joinSp ((words.drop s).take (e - s)))

/-- The inner `for (let k = 0; ...)` scan of one sentence's words: the first
acceptable context-window option, if any. -/
def innerScanGo (words avoid opts : List (List Char)) : Nat → Nat → Option (List Char)
  | 0, _ => none
  | f + 1, k =>
    match words.drop k with
    | [] => none
    | w :: _ =>
      if decide (4 < w.length) && !(avoid.contains (lowerL w)) then
        let opt := mkWindow words k
        if decide (5 < opt.length) && !(opts.contains opt) then some opt
        else innerScanGo words avoid opts f (k + 1)
      else innerScanGo words avoid opts f (k + 1)

/-- The outer `for (let j = 0; ...)` distractor-harvesting loop. -/
def harvestGo (sents : List (List Char)) (i : Nat) (avoid : List (List Char)) :
    Nat → Nat → List (List Char) → List (List Char)
  | 0, _, opts => opts
  | f + 1, j, opts =>
    if 3 ≤ opts.length then opts
    else
      match sents.drop j with
      | [] => opts
      | sj :: _ =>
        if decide (¬ i = j) && decide (15 < sj.length) then
          let words := splitWs sj
          match innerScanGo words avoid opts (words.length + 1) 0 with
          | some opt => harvestGo sents i avoid f (j + 1) (opts ++ [opt])
          | none => harvestGo sents i avoid f (j + 1) opts
        else harvestGo sents i avoid f (j + 1) opts

/-- Distractor options harvested from the other sentences (at most 3). -/
def harvest (sents : List (List Char)) (i : Nat) (avoid : List (List Char)) :
    List (List Char) :=
  harvestGo sents i avoid (sents.length + 1) 0 []

/-- The literal placeholder `` `Option ${n}` ``. -/
def optLabel (n : Nat) : List Char := "Option ".data ++ (Nat.repr n).data

/-- `while (options.length < 3) options.push(`Option ${options.length + 1}`)`. -/
def padOpts (opts : List (List Char)) : List (List Char) :=
  match opts with
  | [] => [optLabel 1, optLabel 2, optLabel 3]
  | [a] => [a, optLabel 2, optLabel 3]
  | [a, b] => [a, b, optLabel 3]
  | other => other

/-- `array.splice(n, 0, x)` (insertion; an index beyond the end appends). -/
def insertAt : Nat → List Char → List (List Char) → List (List Char)
  | 0, x, l => x :: l
  | _ + 1, x, [] => [x]
  | n + 1, x, a :: l => a :: insertAt n x l

/-- `array.indexOf(x)` (first index; the pipeline only reads it when `x` is
present, so the absent case is left at 0). -/
def jsIndexOf : List (List Char) → List Char → Nat
  | [], _ => 0
  | y :: t, x => if y = x then 0 else jsIndexOf t x + 1

/-- `sentence.endsWith('?') ? sentence : sentence + '?'`. -/
def qTextOf (s : List Char) : List Char :=
  if s.getLast? == some '?' then s else s ++ ['?']

/-- The "correct" phrase chosen from the sentence's own words
(`correctPhrases[Math.floor(Math.random() * correctPhrases.length)]`, with
the random draw `a` injected; `"Correct option"` when no phrase exists). -/
def chooseCorrect (s : List Char) (a : Nat) : List Char :=
  let ps := wordRuns s
  if ps.isEmpty then "Correct option".data else ps.getD (a % ps.length) []

/-- One sentence-derived fallback record: splice the correct phrase into the
3-distractor list at `b % 4`, then locate it again by `indexOf`. -/
def mkSentQ (s : List Char) (opts3 : List (List Char)) (a b : Nat) : MCQ :=
  let co := chooseCorrect s a
  let opts := insertAt (b % 4) co opts3
  ⟨qTextOf s, opts.take 4, jsIndexOf opts co⟩

/-- One generic placeholder record (`Question ${k+1} related to the subject?`),
with the random draw `v` injected. -/
def mkGen (k : Nat) (v : Nat) : MCQ :=
  ⟨"Question ".data ++ (Nat.repr (k + 1)).data ++ " related to the subject?".data,
   ["First possible answer".data, "Second possible answer".data,
    "Third possible answer".data, "Fourth possible answer".data],
   v % 4⟩

/-- The sentence loop of the fallback tier.  `allS` is the full sentence
list, `i` the current index, `qc` the number of records produced so far and
`ri` the random-stream counter; returns the records and the final counter. -/
def sentLoopGo (allS : List (List Char)) (count : Nat) (r : Nat → Nat) :
    List (List Char) → Nat → Nat → Nat → List MCQ × Nat
  | [], _, _, ri => ([], ri)
  | s :: rest, i, qc, ri =>
    if count ≤ qc then ([], ri)
    else
      let sent := jsTrim s
      if sent.contains '?' || decide (30 < sent.length) then
        let avoid := ((splitWs sent).filter (fun w => decide (4 < w.length))).map lowerL
        let opts3 := padOpts (harvest allS i avoid)
        let ps := wordRuns sent
        let a := if ps.isEmpty then 0 else r ri
        let ri1 := if ps.isEmpty then ri else ri + 1
        let q := mkSentQ sent opts3 a (r ri1)
        let res := sentLoopGo allS count r rest (i + 1) (qc + 1) (ri1 + 1)
        (q :: res.1, res.2)
      else sentLoopGo allS count r rest (i + 1) qc ri

/-- The generic-record padding loop (`while (questions.length < count)`). -/
def genLoop (r : Nat → Nat) : Nat → Nat → Nat → List MCQ
  | 0, _, _ => []
  | n + 1, k, ri => mkGen k (r ri) :: genLoop r n (k + 1) (ri + 1)

/-- `createFallbackQuestionsFromText(text, count)` with the random stream `r`. -/
def createFallbackQuestionsFromText (t : List Char) (count : Nat) (r : Nat → Nat) :
    List MCQ :=
  let sents := sentSplit t
  let res := sentLoopGo sents count r sents 0 0 0
  (res.1 ++ genLoop r (count - res.1.length) res.1.length res.2).take count

/-!
### The pipeline (`parseMCQQuestions`)
-/

/-- The JavaScript object a structured or fallback record denotes. -/
def MCQ.toVal (q : MCQ) : JsVal :=
  JsVal.obj [("question".data, JsVal.str q.question),
    ("options".data, JsVal.arr (q.options.map JsVal.str)),
    ("correctAnswer".data, JsVal.num ((Nat.repr q.correctAnswer).data))]

/-- Tiers 2 and 3: the structured-text tier with its `length >= 5` acceptance
check, else the fallback generator. -/
def structuredOrFallback (t : List Char) (r : Nat → Nat) : List JsVal :=
  let qs := structuredQuestions t
  if 5 ≤ qs.length then (qs.take 10).map MCQ.toVal
  else (createFallbackQuestionsFromText t 10 r).map MCQ.toVal

/-- `parseMCQQuestions(mcqText)` with the random stream `r`.  A `JSON.parse`
exception propagates to the surrounding `catch`, which returns the fallback
generator's output directly. -/
def parseMCQQuestions (t : List Char) (r : Nat → Nat) : List JsVal :=
  match jsonArrayMatch t with
  | some m =>
    (match jsonParse m with
     | some (JsVal.arr xs) =>
       if 10 ≤ xs.length then xs.take 10 else structuredOrFallback t r
     | some _ => structuredOrFallback t r
     | none => (createFallbackQuestionsFromText t 10 r).map MCQ.toVal)
  | none => structuredOrFallback t r

/-!
### Predicates used to state the specification's claims, and concrete inputs
-/

/-- The record's question text ends with `?`. -/
def endsQm (l : List Char) : Bool := l.getLast? == some '?'

/-- The per-record shape constraints on an `MCQ`: exactly 4 options and a
correct index in `{0,1,2,3}`. -/
def mcqShapedB (q : MCQ) : Bool :=
  q.options.length == 4 && decide (q.correctAnswer < 4)

/-- First field of the given name in a parsed object. -/
def fieldOf (k : List Char) : List (List Char × JsVal) → Option JsVal
  | [] => none
  | (k2, v) :: fs => if k2 = k then some v else fieldOf k fs

/-- The per-record shape constraints read off a raw JavaScript value:
an object whose `options` is an array of exactly 4 elements and whose
`correctAnswer` is one of the numbers 0, 1, 2, 3. -/
def valShaped (v : JsVal) : Bool :=
  match v with
  | JsVal.obj fs =>
    (match fieldOf ("options".data) fs with
     | some (JsVal.arr os) => os.length == 4
     | _ => false) &&
    (match fieldOf ("correctAnswer".data) fs with
     | some (JsVal.num lex) =>
       lex == ['0'] || lex == ['1'] || lex == ['2'] || lex == ['3']
     | _ => false)
  | _ => false

/-- A constant random stream (all draws 0). -/
def rzero : Nat → Nat := fun _ => 0

/-- A constant random stream (all draws 1). -/
def rone : Nat → Nat := fun _ => 1

/-- Text with exactly 5 structured questions, each with 4 lettered options
and a `Correct: B` marker, and no JSON array. -/
def sampleStructured : List Char :=
  ("1. Qa?\nCorrect: B\nA. aa\nB. bb\nC. cc\nD. dd\n\n" ++
   "2. Qb?\nCorrect: B\nA. aa\nB. bb\nC. cc\nD. dd\n\n" ++
   "3. Qc?\nCorrect: B\nA. aa\nB. bb\nC. cc\nD. dd\n\n" ++
   "4. Qd?\nCorrect: B\nA. aa\nB. bb\nC. cc\nD. dd\n\n" ++
   "5. Qe?\nCorrect: B\nA. aa\nB. bb\nC. cc\nD. dd").data

/-- A valid JSON array of 10 elements whose first element has a `question`
field; the elements do not satisfy the record shape. -/
def sampleJsonTen : List Char :=
  ("[\x7b\"question\":1\x7d,0,0,0,0,0,0,0,0,\x7b\x7d]").data

/-- The elements `JSON.parse` produces from `sampleJsonTen`. -/
def jTenElems : List JsVal :=
  [JsVal.obj [("question".data, JsVal.num ['1'])], JsVal.num ['0'], JsVal.num ['0'],
   JsVal.num ['0'], JsVal.num ['0'], JsVal.num ['0'], JsVal.num ['0'], JsVal.num ['0'],
   JsVal.num ['0'], JsVal.obj []]

/-- A valid JSON array of only 2 elements (fewer than `count`). -/
def sampleJsonTwo : List Char := ("[\x7b\"question\":1\x7d,\x7b\x7d]").data

/-- The elements `JSON.parse` produces from `sampleJsonTwo`. -/
def jTwoElems : List JsVal :=
  [JsVal.obj [("question".data, JsVal.num ['1'])], JsVal.obj []]

/-- Text matched by the JSON-array regex on which `JSON.parse` throws
(an object with a key but no value). -/
def sampleBadJson : List Char := ("[ \x7b \"question\" \x7d ]").data

/-- The malformed JSON array followed by 5 parseable structured questions. -/
def sampleBadPlusStruct : List Char := sampleBadJson ++ '\n' :: sampleStructured

/-- Text with no JSON array and no structured questions. -/
def sampleNoStruct : List Char := ("hello").data

/-- An options zone whose only marker is `Correct: B`. -/
def zoneMarkerB : List Char := ("\nCorrect: B\nA. aa\nB. bb\nC. cc\nD. dd").data

/-- An options zone whose only marker is the phrase `The correct answer is B`. -/
def zoneMarkerPhrase : List Char :=
  ("\nThe correct answer is B\nA. aa\nB. bb\nC. cc\nD. dd").data

/-- An options zone with no correct-answer marker at all. -/
def zoneNoMarker : List Char := ("\nA. aa\nB. bb\nC. cc\nD. dd").data

/-- A concrete fallback sentence. -/
def sampleSent : List Char := ("What is gravity exactly?").data

/-- A concrete 3-distractor list. -/
def sampleOpts3 : List (List Char) :=
  [("aaaaaa").data, ("bbbbbb").data, ("cccccc").data]

/-- Text with 5 structured questions whose marker is the phrase
`The correct answer is B` (the stated letter is B in every zone). -/
def sampleStructuredPhrase : List Char :=
  ("1. Qa?\nThe correct answer is B\nA. aa\nB. bb\nC. cc\nD. dd\n\n" ++
   "2. Qb?\nThe correct answer is B\nA. aa\nB. bb\nC. cc\nD. dd\n\n" ++
   "3. Qc?\nThe correct answer is B\nA. aa\nB. bb\nC. cc\nD. dd\n\n" ++
   "4. Qd?\nThe correct answer is B\nA. aa\nB. bb\nC. cc\nD. dd\n\n" ++
   "5. Qe?\nThe correct answer is B\nA. aa\nB. bb\nC. cc\nD. dd").data

/-!
### Helper lemmas
-/

theorem insertAt_length (n : Nat) (x : List Char) (l : List (List Char)) :
    (insertAt n x l).length = l.length + 1 := by
  induction n generalizing l with
  | zero => simp [insertAt]
  | succ n ih =>
    cases l with
    | nil => simp [insertAt]
    | cons a t => simp [insertAt, ih]

theorem insertAt_mem (n : Nat) (x : List Char) (l : List (List Char)) :
    x ∈ insertAt n x l := by
  induction n generalizing l with
  | zero => simp [insertAt]
  | succ n ih =>
    cases l with
    | nil => simp [insertAt]
    | cons a t =>
      simp only [insertAt, List.mem_cons]
      exact Or.inr (ih t)

theorem jsIndexOf_lt (l : List (List Char)) (x : List Char) (h : x ∈ l) :
    jsIndexOf l x < l.length := by
  induction l with
  | nil => cases h
  | cons y t ih =>
    by_cases hy : y = x
    · simp [jsIndexOf, hy]
    · have hx : x ∈ t := by
        rcases List.mem_cons.1 h with h1 | h1
        · exact absurd h1.symm hy
        · exact h1
      simp only [jsIndexOf, hy, if_false, List.length_cons]
      exact Nat.succ_lt_succ (ih hx)

theorem jsIndexOf_getElem? (l : List (List Char)) (x : List Char) (h : x ∈ l) :
    l[jsIndexOf l x]? = some x := by
  induction l with
  | nil => cases h
  | cons y t ih =>
    by_cases hy : y = x
    · simp [jsIndexOf, hy]
    · have hx : x ∈ t := by
        rcases List.mem_cons.1 h with h1 | h1
        · exact absurd h1.symm hy
        · exact h1
      simp only [jsIndexOf, hy, if_false]
      rw [List.getElem?_cons_succ]
      exact ih hx

theorem padOpts_length (opts : List (List Char)) (h : opts.length ≤ 3) :
    (padOpts opts).length = 3 := by
  match opts with
  | [] => rfl
  | [_] => rfl
  | [_, _] => rfl
  | [_, _, _] => rfl
  | _ :: _ :: _ :: _ :: _ => simp at h

theorem harvestGo_le (sents : List (List Char)) (i : Nat) (avoid : List (List Char)) :
    ∀ f j opts, opts.length ≤ 3 → (harvestGo sents i avoid f j opts).length ≤ 3 := by
  intro f
  induction f with
  | zero => intro j opts h; simpa [harvestGo] using h
  | succ f ih =>
    intro j opts h
    rw [harvestGo]
    split
    · exact h
    · split
      · exact h
      · split
        · dsimp only
          split
          · refine ih _ _ ?_
            rw [List.length_append]
            simp only [List.length_cons, List.length_nil]
            omega
          · exact ih _ _ h
        · exact ih _ _ h

theorem harvest_le (sents : List (List Char)) (i : Nat) (avoid : List (List Char)) :
    (harvest sents i avoid).length ≤ 3 :=
  harvestGo_le sents i avoid _ 0 [] (by simp)

theorem genLoop_length (r : Nat → Nat) :
    ∀ n k ri, (genLoop r n k ri).length = n := by
  intro n
  induction n with
  | zero => intro k ri; rfl
  | succ n ih => intro k ri; simp [genLoop, ih]

theorem sentLoopGo_le (allS : List (List Char)) (count : Nat) (r : Nat → Nat) :
    ∀ ss i qc ri, (sentLoopGo allS count r ss i qc ri).1.length ≤ count - qc := by
  intro ss
  induction ss with
  | nil => intro i qc ri; simp [sentLoopGo]
  | cons s rest ih =>
    intro i qc ri
    rw [sentLoopGo]
    split
    · simp
    · dsimp only
      split
      · refine Nat.le_trans (Nat.succ_le_succ (ih (i + 1) (qc + 1) _)) ?_
        omega
      · exact ih (i + 1) qc ri

theorem fallback_length (t : List Char) (n : Nat) (r : Nat → Nat) :
    (createFallbackQuestionsFromText t n r).length = n := by
  unfold createFallbackQuestionsFromText
  rw [List.length_take, List.length_append, genLoop_length]
  have h := sentLoopGo_le (sentSplit t) n r (sentSplit t) 0 0 0
  omega

theorem correctAnswerOf_le (zone : List Char) : correctAnswerOf zone ≤ 3 := by
  unfold correctAnswerOf
  split
  · omega
  · split
    · omega
    · split
      · omega
      · split
        · omega
        · omega

theorem structLoop_prop (t : List Char) (P : MCQ → Prop) :
    ∀ caps acc,
      (∀ cap ∈ caps, ∀ zone opts, 4 ≤ List.length opts →
        P ⟨jsTrim cap, opts.take 4, correctAnswerOf zone⟩) →
      (∀ q ∈ acc, P q) → ∀ q ∈ structLoop t caps acc, P q := by
  intro caps
  induction caps with
  | nil =>
    intro acc _ hacc q hq
    rw [structLoop] at hq
    exact hacc q (List.mem_reverse.1 hq)
  | cons cap rest ih =>
    intro acc hpush hacc q hq
    have hpushr : ∀ c ∈ rest, ∀ zone opts, 4 ≤ List.length opts →
        P ⟨jsTrim c, opts.take 4, correctAnswerOf zone⟩ :=
      fun c hc => hpush c (List.mem_cons_of_mem _ hc)
    rw [structLoop] at hq
    split at hq
    · exact hacc q (List.mem_reverse.1 hq)
    · dsimp only at hq
      split at hq
      · exact ih acc hpushr hacc q hq
      · split at hq
        · exact ih acc hpushr hacc q hq
        · split at hq
          · refine ih _ hpushr ?_ q hq
            intro q2 hq2
            rcases List.mem_cons.1 hq2 with h1 | h1
            · subst h1
              exact hpush cap (List.mem_cons_self _ _) _ _ (by assumption)
            · exact hacc q2 h1
          · exact ih acc hpushr hacc q hq

theorem structuredQuestions_prop (t : List Char) (P : MCQ → Prop)
    (hpush : ∀ cap ∈ qScan t, ∀ zone opts, 4 ≤ List.length opts →
      P ⟨jsTrim cap, opts.take 4, correctAnswerOf zone⟩) :
    ∀ q ∈ structuredQuestions t, P q :=
  structLoop_prop t P (qScan t) [] hpush (by simp)

theorem genLoop_prop (r : Nat → Nat) (P : MCQ → Prop)
    (hgen : ∀ k v, P (mkGen k v)) :
    ∀ n k ri, ∀ q ∈ genLoop r n k ri, P q := by
  intro n
  induction n with
  | zero => intro k ri q hq; cases hq
  | succ n ih =>
    intro k ri q hq
    rcases List.mem_cons.1 hq with h1 | h1
    · subst h1; exact hgen _ _
    · exact ih _ _ q h1

theorem sentLoopGo_prop (allS : List (List Char)) (count : Nat) (r : Nat → Nat)
    (P : MCQ → Prop)
    (hsent : ∀ s opts3 a b, List.length opts3 = 3 → P (mkSentQ s opts3 a b)) :
    ∀ ss i qc ri, ∀ q ∈ (sentLoopGo allS count r ss i qc ri).1, P q := by
  intro ss
  induction ss with
  | nil => intro i qc ri q hq; cases hq
  | cons s rest ih =>
    intro i qc ri q hq
    rw [sentLoopGo] at hq
    split at hq
    · simp at hq
    · dsimp only at hq
      split at hq
      · rcases List.mem_cons.1 hq with h1 | h1
        · subst h1
          exact hsent _ _ _ _ (padOpts_length _ (harvest_le _ _ _))
        · exact ih (i + 1) (qc + 1) _ q h1
      · exact ih (i + 1) qc ri q hq

theorem fallback_prop (t : List Char) (n : Nat) (r : Nat → Nat) (P : MCQ → Prop)
    (hsent : ∀ s opts3 a b, List.length opts3 = 3 → P (mkSentQ s opts3 a b))
    (hgen : ∀ k v, P (mkGen k v)) :
    ∀ q ∈ createFallbackQuestionsFromText t n r, P q := by
  intro q hq
  unfold createFallbackQuestionsFromText at hq
  have hq2 := List.mem_of_mem_take hq
  rcases List.mem_append.1 hq2 with h | h
  · exact sentLoopGo_prop _ n r P hsent _ 0 0 0 q h
  · exact genLoop_prop r P hgen _ _ _ q h

theorem dropWhile_getLast? (p : Char → Bool) (l : List Char) (c : Char)
    (hc : p c = false) (h : l.getLast? = some c) :
    (l.dropWhile p).getLast? = some c := by
  induction l with
  | nil => simp at h
  | cons a t ih =>
    cases t with
    | nil =>
      simp only [List.getLast?_singleton, Option.some.injEq] at h
      subst h
      simp [List.dropWhile, hc]
    | cons b t2 =>
      have h2 : (b :: t2).getLast? = some c := by
        rwa [List.getLast?_cons_cons] at h
      by_cases hp : p a
      · simpa [List.dropWhile, hp] using ih h2
      · simp only [List.dropWhile, hp]
        rwa [List.getLast?_cons_cons]

theorem jsTrim_ends (l : List Char) (h : l.getLast? = some '?') :
    (jsTrim l).getLast? = some '?' := by
  unfold jsTrim
  have h1 : (l.dropWhile isWs).getLast? = some '?' :=
    dropWhile_getLast? isWs l '?' (by decide) h
  have h2 : (l.dropWhile isWs).reverse.head? = some '?' := by
    rw [List.head?_reverse]; exact h1
  rw [List.getLast?_reverse]
  cases hm : (l.dropWhile isWs).reverse with
  | nil => rw [hm] at h2; cases h2
  | cons d t =>
    rw [hm] at h2
    simp only [List.head?_cons, Option.some.injEq] at h2
    subst h2
    simp [List.dropWhile, (by decide : isWs '?' = false)]

theorem append_getLast?_q (l1 l2 : List Char) (h : l2.getLast? = some '?') :
    (l1 ++ l2).getLast? = some '?' := by
  induction l1 with
  | nil => simpa using h
  | cons a t ih =>
    cases ht : t ++ l2 with
    | nil =>
      rcases List.append_eq_nil.1 ht with ⟨_, h2⟩
      subst h2; cases h
    | cons b u =>
      simp only [List.cons_append, ht, List.getLast?_cons_cons]
      rw [← ht, ih]

theorem qTextOf_ends (s : List Char) : (qTextOf s).getLast? = some '?' := by
  unfold qTextOf
  split
  · next h => exact eq_of_beq h
  · exact List.getLast?_concat s

theorem matchQBody_ends (l cap rest : List Char)
    (h : matchQBody l = some (cap, rest)) : cap.getLast? = some '?' := by
  unfold matchQBody at h
  dsimp only at h
  split at h
  · cases h
  · split at h
    · cases h
    · cases h
    · simp only [Option.some.injEq, Prod.mk.injEq] at h
      rw [← h.1]
      exact List.getLast?_concat _
  · cases h

theorem qScanTail_ends :
    ∀ f l, ∀ cap ∈ qScanTail f l, cap.getLast? = some '?' := by
  intro f
  induction f with
  | zero => intro l cap hc; cases hc
  | succ f ih =>
    intro l cap hc
    cases l with
    | nil => cases hc
    | cons c t =>
      rw [qScanTail] at hc
      split at hc
      · split at hc
        · rcases List.mem_cons.1 hc with h1 | h1
          · subst h1
            next heq => exact matchQBody_ends _ _ _ heq
          · exact ih _ cap h1
        · exact ih _ cap hc
      · exact ih _ cap hc

theorem qScan_ends (l : List Char) : ∀ cap ∈ qScan l, cap.getLast? = some '?' := by
  intro cap hc
  unfold qScan at hc
  split at hc
  · rcases List.mem_cons.1 hc with h1 | h1
    · subst h1
      next heq => exact matchQBody_ends _ _ _ heq
    · exact qScanTail_ends _ _ cap h1
  · exact qScanTail_ends _ _ cap hc

theorem structuredOrFallback_length (t : List Char) (r : Nat → Nat) :
    5 ≤ (structuredOrFallback t r).length ∧ (structuredOrFallback t r).length ≤ 10 ∧
    ((structuredOrFallback t r).length = 10 ∨
      (structuredOrFallback t r).length = (structuredQuestions t).length) := by
  unfold structuredOrFallback
  dsimp only
  split
  · next h5 =>
    rw [List.length_map, List.length_take]
    by_cases h10 : 10 ≤ (structuredQuestions t).length
    · refine ⟨by omega, by omega, Or.inl (by omega)⟩
    · refine ⟨by omega, by omega, Or.inr (by omega)⟩
  · rw [List.length_map, fallback_length]
    exact ⟨by omega, by omega, Or.inl rfl⟩

/-!
### Claim theorems
-/

/-- C1, counterexample: on a text containing exactly five structured
questions (and no JSON array), `parseMCQQuestions` returns 5 records, not
`count = 10` — the claim "the result length is always exactly 10" is false. -/
theorem c1_counterexample :
    (parseMCQQuestions sampleStructured rzero).length = 5 ∧
    ¬ (parseMCQQuestions sampleStructured rzero).length = 10 := by
  have h5 : (parseMCQQuestions sampleStructured rzero).length = 5 := by rfl
  exact ⟨h5, by rw [h5]; decide⟩

/-- C1, amended: for every input string and random stream the pipeline
returns between 5 and 10 records; the result has exactly 10 records unless
the structured-text tier accepted, in which case the result length is the
number of accumulated structured records (which can be 5–9: no top-up from
the fallback tier). -/
theorem c1_amended_bounds : ∀ (t : List Char) (r : Nat → Nat),
    5 ≤ (parseMCQQuestions t r).length ∧ (parseMCQQuestions t r).length ≤ 10 ∧
    ((parseMCQQuestions t r).length = 10 ∨
      (parseMCQQuestions t r).length = (structuredQuestions t).length) := by
  intro t r
  unfold parseMCQQuestions
  split
  · split
    · split
      · next hlen =>
        rw [List.length_take]
        exact ⟨by omega, by omega, Or.inl (by omega)⟩
      · exact structuredOrFallback_length t r
    · exact structuredOrFallback_length t r
    · rw [List.length_map, fallback_length]
      exact ⟨by omega, by omega, Or.inl rfl⟩
  · exact structuredOrFallback_length t r

/-- C2, counterexample: a valid JSON array of 10 elements is returned
verbatim by the JSON tier with no shape validation; its records need not
have 4 options or an in-range `correctAnswer`, so the claim "every record
returned by the pipeline — including the JSON tier — satisfies the
per-field constraints" is false. -/
theorem c2_counterexample :
    parseMCQQuestions sampleJsonTen rzero = jTenElems ∧
    jTenElems.all valShaped = false :=
  ⟨rfl, rfl⟩

/-- C2, amended: every record produced by the structured-text tier or by the
fallback tier satisfies the per-field constraints (exactly 4 options,
`correctAnswer ∈ {0,1,2,3}`); records returned by the JSON tier are passed
through verbatim and are not validated. -/
theorem c2_amended_shape : ∀ (t : List Char) (r : Nat → Nat),
    ((structuredQuestions t).all mcqShapedB) = true ∧
    ((createFallbackQuestionsFromText t 10 r).all mcqShapedB) = true := by
  intro t r
  constructor
  · rw [List.all_eq_true]
    intro q hq
    refine structuredQuestions_prop t (fun q => mcqShapedB q = true) ?_ q hq
    intro cap _ zone opts h4
    unfold mcqShapedB
    simp only [Bool.and_eq_true, beq_iff_eq, decide_eq_true_eq]
    constructor
    · rw [List.length_take]; omega
    · have := correctAnswerOf_le zone; omega
  · rw [List.all_eq_true]
    intro q hq
    refine fallback_prop t 10 r (fun q => mcqShapedB q = true) ?_ ?_ q hq
    · intro s opts3 a b h3
      unfold mkSentQ mcqShapedB
      dsimp only
      simp only [Bool.and_eq_true, beq_iff_eq, decide_eq_true_eq]
      have hlen : (insertAt (b % 4) (chooseCorrect s a) opts3).length = 4 := by
        rw [insertAt_length, h3]
      constructor
      · rw [List.length_take]; omega
      · have hm := insertAt_mem (b % 4) (chooseCorrect s a) opts3
        have := jsIndexOf_lt _ _ hm
        omega
    · intro k v
      unfold mkGen mcqShapedB
      simp only [Bool.and_eq_true, beq_iff_eq, decide_eq_true_eq]
      exact ⟨rfl, Nat.mod_lt _ (by norm_num)⟩

/-- C3: if the JSON-array regex matches and `JSON.parse` yields an array of
at least `count = 10` elements, the pipeline returns exactly the first 10
elements of that array verbatim; if the parsed array has fewer than 10
elements, the JSON tier is insufficient and the pipeline's result is that of
the structured-text/fallback phase. -/
theorem c3_json_tier : ∀ (t : List Char) (r : Nat → Nat) (m : List Char)
    (xs : List JsVal),
    jsonArrayMatch t = some m → jsonParse m = some (JsVal.arr xs) →
    ((10 ≤ xs.length → parseMCQQuestions t r = xs.take 10) ∧
     (xs.length < 10 → parseMCQQuestions t r = structuredOrFallback t r)) := by
  intro t r m xs hm hp
  constructor
  · intro hlen
    simp only [parseMCQQuestions, hm, hp]
    rw [if_pos hlen]
  · intro hlen
    simp only [parseMCQQuestions, hm, hp]
    rw [if_neg (by omega)]

/-- Witness for C3 at concrete inputs: a 10-element array is truncated to
itself, and a 2-element array falls through to the later tiers. -/
theorem c3_json_tier_witness :
    parseMCQQuestions sampleJsonTen rzero = jTenElems.take 10 ∧
    parseMCQQuestions sampleJsonTwo rzero = structuredOrFallback sampleJsonTwo rzero := by
  constructor
  · exact (c3_json_tier sampleJsonTen rzero sampleJsonTen jTenElems rfl rfl).1
      (by decide)
  · exact (c3_json_tier sampleJsonTwo rzero sampleJsonTwo jTwoElems rfl rfl).2
      (by decide)

/-- C4, counterexample: on a text where the JSON-array regex matches but
`JSON.parse` throws, and which also contains five parseable structured
questions, the pipeline does *not* fall through to the structured-text tier:
the `catch` handler returns the fallback generator's output instead, so the
claim "an exception in the JSON tier passes control to the structured-text
tier next" is false. -/
theorem c4_counterexample :
    jsonArrayMatch sampleBadPlusStruct = some sampleBadJson ∧
    jsonParse sampleBadJson = none ∧
    5 ≤ (structuredQuestions sampleBadPlusStruct).length ∧
    parseMCQQuestions sampleBadPlusStruct rzero ≠
      structuredOrFallback sampleBadPlusStruct rzero := by
  refine ⟨by rfl, by rfl, by decide, fun h => ?_⟩
  have h1 : (parseMCQQuestions sampleBadPlusStruct rzero).length = 10 := by rfl
  have h2 : (structuredOrFallback sampleBadPlusStruct rzero).length = 5 := by rfl
  rw [h, h2] at h1
  exact absurd h1 (by decide)

/-- C4, amended: an exception raised inside the JSON tier (a regex match
that `JSON.parse` rejects) is caught locally and never surfaced, but control
passes directly to the heuristic fallback generator, skipping the
structured-text tier. -/
theorem c4_amended_catch : ∀ (t : List Char) (r : Nat → Nat) (m : List Char),
    jsonArrayMatch t = some m → jsonParse m = none →
    parseMCQQuestions t r = (createFallbackQuestionsFromText t 10 r).map MCQ.toVal := by
  intro t r m hm hp
  simp only [parseMCQQuestions, hm, hp]

/-- Witness for C4's amended theorem at a concrete input. -/
theorem c4_amended_catch_witness :
    parseMCQQuestions sampleBadPlusStruct rone =
      (createFallbackQuestionsFromText sampleBadPlusStruct 10 rone).map MCQ.toVal :=
  c4_amended_catch sampleBadPlusStruct rone sampleBadJson rfl rfl

/-- C5: when the JSON tier does not match, the pipeline runs the
structured-text tier; if 5 or more records were accumulated it returns up to
10 of them (no top-up from the fallback tier), and if fewer than 5 were
accumulated the heuristic fallback generator runs instead. -/
theorem c5_structured_policy : ∀ (t : List Char) (r : Nat → Nat),
    (jsonArrayMatch t = none → parseMCQQuestions t r = structuredOrFallback t r) ∧
    (5 ≤ (structuredQuestions t).length →
      structuredOrFallback t r = ((structuredQuestions t).take 10).map MCQ.toVal) ∧
    ((structuredQuestions t).length < 5 →
      structuredOrFallback t r = (createFallbackQuestionsFromText t 10 r).map MCQ.toVal) := by
  intro t r
  refine ⟨?_, ?_, ?_⟩
  · intro hm
    simp only [parseMCQQuestions, hm]
  · intro h5
    unfold structuredOrFallback
    dsimp only
    rw [if_pos h5]
  · intro h5
    unfold structuredOrFallback
    dsimp only
    rw [if_neg (by omega)]

/-- Witness for C5 at concrete inputs: the five-question text is accepted by
the structured tier (returning 5 records), and a structureless text falls
through to the fallback generator. -/
theorem c5_structured_policy_witness :
    parseMCQQuestions sampleStructured rzero =
      ((structuredQuestions sampleStructured).take 10).map MCQ.toVal ∧
    structuredOrFallback sampleNoStruct rzero =
      (createFallbackQuestionsFromText sampleNoStruct 10 rzero).map MCQ.toVal := by
  constructor
  · exact ((c5_structured_policy sampleStructured rzero).1 rfl).trans
      ((c5_structured_policy sampleStructured rzero).2.1 (by decide))
  · exact (c5_structured_policy sampleNoStruct rzero).2.2 (by decide)

/-- C6 (code bug): a zone whose only marker is `Correct: B` does map to
index 1, and a zone with no marker defaults to 0; but a zone carrying the
phrase `The correct answer is B` yields index 0, not 1, because in
`/correct(?:\s*answer)?(?:\s*is)?(?:\s*:)?\s*A/i` every filler group is
optional and the final letter is matched case-insensitively, so the `a` of
`answer` satisfies the letter `A` and the A-branch fires first. -/
theorem c6_marker_eval :
    correctAnswerOf zoneMarkerB = 1 ∧
    hasSub ("correct answer is B".data) zoneMarkerPhrase = true ∧
    correctAnswerOf zoneMarkerPhrase = 0 ∧
    correctAnswerOf zoneNoMarker = 0 ∧
    (structuredQuestions sampleStructuredPhrase).map (fun q => q.correctAnswer) =
      [0, 0, 0, 0, 0] :=
  ⟨rfl, rfl, rfl, rfl, rfl⟩

/-- C7: a sentence-derived fallback record inserts the chosen correct phrase
at position `b % 4 ∈ [0,3]` into the 3-distractor list, producing 4 options;
`correctAnswer` is the position of the phrase in the final list, so
`options[correctAnswer]` is exactly the chosen phrase and the index is in
range. -/
theorem c7_sentence_record : ∀ (s : List Char) (opts3 : List (List Char)) (a b : Nat),
    List.length opts3 = 3 →
    (mkSentQ s opts3 a b).options.length = 4 ∧
    (mkSentQ s opts3 a b).correctAnswer < 4 ∧
    (mkSentQ s opts3 a b).options[(mkSentQ s opts3 a b).correctAnswer]? =
      some (chooseCorrect s a) ∧
    b % 4 ≤ 3 := by
  intro s opts3 a b h3
  have hlen : (insertAt (b % 4) (chooseCorrect s a) opts3).length = 4 := by
    rw [insertAt_length, h3]
  have hmem := insertAt_mem (b % 4) (chooseCorrect s a) opts3
  have htake : (insertAt (b % 4) (chooseCorrect s a) opts3).take 4 =
      insertAt (b % 4) (chooseCorrect s a) opts3 :=
    List.take_of_length_le (le_of_eq hlen)
  unfold mkSentQ
  dsimp only
  rw [htake]
  refine ⟨hlen, ?_, ?_, by omega⟩
  · have := jsIndexOf_lt _ _ hmem
    omega
  · exact jsIndexOf_getElem? _ _ hmem

/-- Witness for C7 at a concrete sentence and distractor list. -/
theorem c7_sentence_record_witness :
    List.length sampleOpts3 = 3 ∧
    ((mkSentQ sampleSent sampleOpts3 0 2).options.length = 4 ∧
     (mkSentQ sampleSent sampleOpts3 0 2).correctAnswer < 4 ∧
     (mkSentQ sampleSent sampleOpts3 0 2).options[(mkSentQ sampleSent sampleOpts3 0 2).correctAnswer]? =
       some (chooseCorrect sampleSent 0) ∧
     2 % 4 ≤ 3) :=
  ⟨by decide, c7_sentence_record sampleSent sampleOpts3 0 2 (by decide)⟩

/-- C8: the JSON tier is deterministic — when the regex matches and the
parsed array has at least 10 elements, the pipeline's output does not depend
on the random stream. -/
theorem c8_json_deterministic : ∀ (t : List Char) (r1 r2 : Nat → Nat)
    (m : List Char) (xs : List JsVal),
    jsonArrayMatch t = some m → jsonParse m = some (JsVal.arr xs) →
    10 ≤ xs.length → parseMCQQuestions t r1 = parseMCQQuestions t r2 := by
  intro t r1 r2 m xs hm hp hlen
  simp only [parseMCQQuestions, hm, hp, if_pos hlen]

/-- Witness for C8: two different random streams give the same output on a
JSON-tier success. -/
theorem c8_json_deterministic_witness :
    parseMCQQuestions sampleJsonTen rzero = parseMCQQuestions sampleJsonTen rone :=
  c8_json_deterministic sampleJsonTen rzero rone sampleJsonTen jTenElems rfl rfl
    (by decide)

/-- C9: for every input string and random stream, the pipeline returns at
most 10 records — every return path truncates to at most 10. -/
theorem c9_at_most_ten : ∀ (t : List Char) (r : Nat → Nat),
    (parseMCQQuestions t r).length ≤ 10 := by
  intro t r
  unfold parseMCQQuestions
  split
  · split
    · split
      · rw [List.length_take]; omega
      · exact (structuredOrFallback_length t r).2.1
    · exact (structuredOrFallback_length t r).2.1
    · rw [List.length_map, fallback_length]
  · exact (structuredOrFallback_length t r).2.1

/-- C10: every record produced by the structured-text tier or by the
heuristic fallback tier has a question string ending in `?` — the structured
tier's capture ends at a `?` (and trimming preserves it), and the fallback
tier appends `?` when missing (its generic placeholders end in `?` too). -/
theorem c10_question_mark : ∀ (t : List Char) (r : Nat → Nat),
    ((structuredQuestions t).all fun q => endsQm q.question) = true ∧
    ((createFallbackQuestionsFromText t 10 r).all fun q => endsQm q.question) = true := by
  intro t r
  constructor
  · rw [List.all_eq_true]
    intro q hq
    refine structuredQuestions_prop t (fun q => endsQm q.question = true) ?_ q hq
    intro cap hcap zone opts _
    show endsQm (jsTrim cap) = true
    unfold endsQm
    rw [jsTrim_ends cap (qScan_ends t cap hcap)]
    rfl
  · rw [List.all_eq_true]
    intro q hq
    refine fallback_prop t 10 r (fun q => endsQm q.question = true) ?_ ?_ q hq
    · intro s opts3 a b _
      show endsQm (qTextOf s) = true
      unfold endsQm
      rw [qTextOf_ends]
      rfl
    · intro k v
      show endsQm ("Question ".data ++ (Nat.repr (k + 1)).data ++
        " related to the subject?".data) = true
      unfold endsQm
      rw [append_getLast?_q _ _ (by rfl)]
      rfl
